import Mathlib

/-!
# Verification of the crypto-ecosystems taxonomy engine

A shallow embedding of `src/main.rs` of the crypto-ecosystems repository:
the record model (`Ecosystem`, `Repo`), the URL classifier
(`parse_repo_url_type`), the ordering/diff engine
(`find_misordered_elements_diff`), the validator (`validate_ecosystems`),
the canonical text writer (`write_ecosystem_to_toml`) and the graph builder
(`parse_toml_files`).

Strings are represented by Lean `String`, but every string operation is
implemented here by structural recursion over the underlying character list
so that all definitions evaluate inside the kernel.  Rust's `String` order
is byte-lexicographic over UTF-8, which coincides with code-point
lexicographic order, modelled by `lexLe`.  Rust's `to_lowercase`,
`char::is_whitespace` and `str::trim` are modelled by the corresponding
ASCII operations (`Char.toLower`, `Char.isWhitespace`); they agree on all
ASCII data, which is the domain exercised by the claims.

External crates used by the source (the `url` parser, the `imara_diff`
unified-diff builder, the `toml` serializer/deserializer) are not part of
the repository; they are modelled from their documented behaviour, each
marked by a doc comment.
-/

namespace CryptoEcosystems

/-! ## Character-list utilities (structural, kernel-evaluable) -/

/-- Lexicographic `≤` on character lists by code point.  Models Rust's
`String` `Ord` (byte-lexicographic over UTF-8, which is code-point
lexicographic). -/
def lexLe : List Char → List Char → Bool
  | [], _ => true
  | _ :: _, [] => false
  | a :: as, b :: bs => if a < b then true else if a = b then lexLe as bs else false

/-- Rust `to_lowercase`, restricted to ASCII case mapping. -/
def toLowerStr (s : String) : String := ⟨s.data.map Char.toLower⟩

/-- `a.to_lowercase() <= b.to_lowercase()`: the key comparison used by
every `sort_by_key(|x| x.to_lowercase())` in the source. -/
def lowerLe (a b : String) : Bool := lexLe (toLowerStr a).data (toLowerStr b).data

/-- `lowerLe` as a decidable relation, for `List.insertionSort`. -/
def lowerRel (a b : String) : Prop := lowerLe a b = true

instance : DecidableRel lowerRel := fun _ _ => Bool.decEq _ _

/-- The canonical case-insensitive stable sort of the source
(`sort_by_key(|x| x.to_lowercase())`; Rust's list sort is stable, and a
stable sort is extensionally unique, so insertion sort embeds it
faithfully). -/
def sortByLower (l : List String) : List String := l.insertionSort lowerRel

/-- Split a character list at every occurrence of `c`; mirrors Rust's
`str::split(char)` (so `"/foo".split('/')` gives `["", "foo"]`). -/
def splitOnChar (c : Char) : List Char → List (List Char)
  | [] => [[]]
  | x :: xs =>
    match splitOnChar c xs with
    | [] => if x = c then [[], []] else [[x]]
    | y :: ys => if x = c then [] :: y :: ys else (x :: y) :: ys

/-- Join character chunks with a separator character. -/
def intercalateChar (c : Char) : List (List Char) → List Char
  | [] => []
  | [x] => x
  | x :: y :: ys => x ++ c :: intercalateChar c (y :: ys)

/-- Split the input at the first occurrence of `"://"`, returning the text
before it and the text after it. -/
def breakOnSchemeSep : List Char → Option (List Char × List Char)
  | [] => none
  | ':' :: '/' :: '/' :: rest => some ([], rest)
  | c :: rest => (breakOnSchemeSep rest).map (fun p => (c :: p.1, p.2))

/-- Is `pat` an initial segment of the second list? -/
def leadsWith : List Char → List Char → Bool
  | [], _ => true
  | _ :: _, [] => false
  | p :: ps, c :: cs => p == c && leadsWith ps cs

/-- Does `pat` occur as a contiguous subsequence? -/
def containsSeq (pat : List Char) : List Char → Bool
  | [] => pat.isEmpty
  | c :: cs => leadsWith pat (c :: cs) || containsSeq pat cs

/-- Substring test on strings. -/
def strContains (s pat : String) : Bool := containsSeq pat.data s.data

/-- Rust `str::ends_with(char)`. -/
def strEndsWithChar (s : String) (c : Char) : Bool := s.data.getLast? == some c

/-- Rust `str::trim`, restricted to ASCII whitespace. -/
def trimStr (s : String) : String :=
  ⟨((s.data.dropWhile Char.isWhitespace).reverse.dropWhile Char.isWhitespace).reverse⟩

/-- Concatenate a list of strings. -/
def joinStr : List String → String
  | [] => ""
  | s :: ss => s ++ joinStr ss

/-- Join strings with a separator, as in `["a", "b"] ↦ "a, b"`. -/
def intercalateStr (sep : String) : List String → String
  | [] => ""
  | [s] => s
  | s :: t :: ts => s ++ sep ++ intercalateStr sep (t :: ts)

/-! ## Record model (`struct Ecosystem`, `struct Repo`, `enum RepoUrlType`,
`enum ValidationError`, `struct UnsortedEcosystem`, `struct ValidationStats`
from `src/main.rs`) -/

/-- `struct Repo { url, tags, missing }`. -/
structure Repo where
  url : String
  tags : Option (List String)
  missing : Option Bool
deriving DecidableEq, Repr

/-- `struct Ecosystem { title, github_organizations, sub_ecosystems, repo }`. -/
structure Ecosystem where
  title : String
  github_organizations : Option (List String)
  sub_ecosystems : Option (List String)
  repo : Option (List Repo)
deriving DecidableEq, Repr

/-- `enum RepoUrlType`: the six URL categories. -/
inductive RepoUrlType where
  | GithubUnnormalized
  | GithubUserOrOrganization
  | GithubRepository
  | GithubTreeish
  | OtherServiceRepository
  | InvalidUrl
deriving DecidableEq, Repr

/-- `struct UnsortedEcosystem`: one aggregated sorting error with the three
optional section diffs. -/
structure UnsortedEcosystem where
  ecosystem : String
  repo_diff : Option String
  sub_eco_diff : Option String
  github_org_diff : Option String
deriving DecidableEq, Repr

/-- `enum ValidationError`. -/
inductive ValidationError where
  | MissingSubecosystem (parent : String) (child : String)
  | DuplicateRepoUrl (url : String)
  | TitleError (file : String)
  | EmptyEcosystem (title : String)
  | UnsortedEcosystem (u : CryptoEcosystems.UnsortedEcosystem)
  | InvalidRepoUrl (url : String) (url_type : RepoUrlType)
deriving DecidableEq, Repr

/-- `struct ValidationStats`. -/
structure ValidationStats where
  ecosystem_count : Nat
  repo_count : Nat
  missing_count : Nat
  errors : List ValidationError

/-! ## URL classifier (`parse_repo_url_type`) -/

/-- The host/path view of a parsed absolute URL.  `host` is an `Option` to
mirror `Url::host_str()`. -/
structure ParsedUrl where
  scheme : String
  host : Option String
  path : String
deriving DecidableEq, Repr

/-- Is this a syntactically valid URL scheme (`ALPHA *( ALPHA / DIGIT /
"+" / "-" / "." )`)? -/
def schemeOk : List Char → Bool
  | [] => false
  | c :: rest => c.isAlpha && rest.all (fun d => d.isAlphanum || d = '+' || d = '-' || d = '.')

/-- Modelled from the spec: the external `url` crate's `Url::parse` for
host-bearing absolute URLs (§6 treats parsing as an external collaborator).
The model accepts `scheme "://" host [ "/" path ]` with a valid scheme and
a non-empty host, lower-casing the host and normalizing an empty path to
`"/"` as the crate does for special schemes; all other inputs — including
URLs the crate parses but with `host_str() = None` — are folded into a
parse failure, which the classifier maps to the same `InvalidUrl`
outcome. -/
def urlParse (s : String) : Option ParsedUrl :=
  match breakOnSchemeSep s.data with
  | none => none
  | some (scheme, rest) =>
    if schemeOk scheme then
      match splitOnChar '/' rest with
      | [] => none
      | host :: pathParts =>
        if host.isEmpty then none
        else some { scheme := ⟨scheme⟩, host := some (toLowerStr ⟨host⟩),
                    path := ⟨'/' :: intercalateChar '/' pathParts⟩ }
    else none

/-- `fn parse_repo_url_type(url: &str) -> RepoUrlType` from `src/main.rs`
lines 163–187, kept branch for branch. -/
def parse_repo_url_type (url : String) : RepoUrlType :=
  match urlParse url with
  | some parsed =>
    match parsed.host with
    | some host =>
      if host = "github.com" ∨ host = "www.github.com" then
        if strEndsWithChar url '/' then
          RepoUrlType.GithubUnnormalized
        else
          let parts := splitOnChar '/' parsed.path.data
          if parts.length = 3 then RepoUrlType.GithubRepository
          else if parts.length = 2 then RepoUrlType.GithubUserOrOrganization
          else RepoUrlType.GithubTreeish
      else RepoUrlType.OtherServiceRepository
    | none => RepoUrlType.InvalidUrl
  | none => RepoUrlType.InvalidUrl

/-! ## Ordering & diff engine (`find_misordered_elements_diff`) -/

/-- Length of the longest common prefix of two line lists. -/
def commonHeadLen : List String → List String → Nat
  | a :: as, b :: bs => if a = b then commonHeadLen as bs + 1 else 0
  | _, _ => 0

/-- Modelled from the spec: the external `imara_diff` crate's
`UnifiedDiffBuilder` output for the two line sequences (§4.2's
"unified-diff-style text block").  The model aligns the longest common
head and tail and renders the remaining middle as one hunk of `-`/`+`
lines under a `@@` header; the header alone already makes the rendering
non-empty, as a unified diff of two distinct sequences always is. -/
def unifiedDiff (before after : List String) : String :=
  let p := commonHeadLen before after
  let b := before.drop p
  let a := after.drop p
  let s := commonHeadLen b.reverse a.reverse
  let bMid := b.take (b.length - s)
  let aMid := a.take (a.length - s)
  "@@ -" ++ toString (p + 1) ++ "," ++ toString bMid.length ++
    " +" ++ toString (p + 1) ++ "," ++ toString aMid.length ++ " @@\n" ++
  joinStr (bMid.map (fun l => "-" ++ l ++ "\n")) ++
  joinStr (aMid.map (fun l => "+" ++ l ++ "\n"))

/-- `fn find_misordered_elements_diff(strings: &[String]) -> Option<String>`
from `src/main.rs` lines 227–246: `None` for an empty slice, `None` when
the slice already equals its stable case-insensitive sort, otherwise the
unified diff from the original lines to the sorted lines. -/
def find_misordered_elements_diff (strings : List String) : Option String :=
  if strings.isEmpty then none
  else
    let sorted := sortByLower strings
    if strings = sorted then none
    else some (unifiedDiff strings sorted)

/-! ## Validator (`validate_ecosystems`) -/

/-- The four `RepoUrlType` categories that `validate_ecosystems` rejects
(lines 314–323); `GithubRepository` and `OtherServiceRepository` pass. -/
def isInvalidUrlType : RepoUrlType → Bool
  | RepoUrlType.GithubUnnormalized => true
  | RepoUrlType.GithubTreeish => true
  | RepoUrlType.GithubUserOrOrganization => true
  | RepoUrlType.InvalidUrl => true
  | _ => false

/-- The per-repo error walk of lines 296–324: `seen` carries the
lower-cased URLs already visited in this ecosystem (the `seen_repos`
hash set, modelled as a membership list); each entry contributes its
`DuplicateRepoUrl` error (if its lower-cased URL was seen) followed by its
`InvalidRepoUrl` error (if its category is rejected). -/
def repoEntryErrors (seen : List String) : List Repo → List ValidationError
  | [] => []
  | r :: rest =>
    let lower := toLowerStr r.url
    let dupErr := if lower ∈ seen then [ValidationError.DuplicateRepoUrl r.url] else []
    let seen' := if lower ∈ seen then seen else lower :: seen
    let t := parse_repo_url_type r.url
    let invErr := if isInvalidUrlType t then [ValidationError.InvalidRepoUrl r.url t] else []
    dupErr ++ invErr ++ repoEntryErrors seen' rest

/-- The repo list of an ecosystem (`eco.repo.iter().flatten()`). -/
def ecoRepos (e : Ecosystem) : List Repo :=
  match e.repo with
  | some rs => rs
  | none => []

/-- The errors one ecosystem contributes to `validate_ecosystems`
(lines 254–338), in emission order: missing sub-ecosystem references,
the per-repo errors, the emptiness error, and at most one aggregated
`UnsortedEcosystem` error built from the three optional section diffs. -/
def ecoErrors (keys : List String) (eco : Ecosystem) : List ValidationError :=
  let has_subs := match eco.sub_ecosystems with
    | some l => !l.isEmpty
    | none => false
  let has_orgs := match eco.github_organizations with
    | some l => !l.isEmpty
    | none => false
  let has_repos := match eco.repo with
    | some l => !l.isEmpty
    | none => false
  let missingSubErrs := match eco.sub_ecosystems with
    | some subs =>
      (subs.filter (fun sub => !(keys.contains sub))).map
        (fun sub => ValidationError.MissingSubecosystem eco.title sub)
    | none => []
  let sub_eco_diff := match eco.sub_ecosystems with
    | some subs => find_misordered_elements_diff subs
    | none => none
  let github_org_diff := match eco.github_organizations with
    | some orgs => find_misordered_elements_diff orgs
    | none => none
  let repoErrs := match eco.repo with
    | some repos => repoEntryErrors [] repos
    | none => []
  let repo_diff := match eco.repo with
    | some repos => find_misordered_elements_diff (repos.map (fun r => r.url))
    | none => none
  let emptyErrs := if has_subs || has_orgs || has_repos then []
    else [ValidationError.EmptyEcosystem eco.title]
  let unsortedErrs :=
    if sub_eco_diff.isSome || github_org_diff.isSome || repo_diff.isSome then
      [ValidationError.UnsortedEcosystem
        { ecosystem := eco.title, repo_diff := repo_diff,
          sub_eco_diff := sub_eco_diff, github_org_diff := github_org_diff }]
    else []
  missingSubErrs ++ repoErrs ++ emptyErrs ++ unsortedErrs

/-- `type EcosystemMap = HashMap<String, Ecosystem>`, modelled as an
association list with distinct keys maintained by `mapInsert`; the hash
map's unspecified iteration order becomes the list order. -/
abbrev EcosystemMap := List (String × Ecosystem)

/-- The keys of the map. -/
def keysOf (m : EcosystemMap) : List String := m.map (fun p => p.1)

/-- The values of the map, in iteration order. -/
def valuesOf (m : EcosystemMap) : List Ecosystem := m.map (fun p => p.2)

/-- `HashMap::insert`: overwrite the value at the key's (unique) binding,
otherwise add a new binding. -/
def mapInsert : EcosystemMap → String → Ecosystem → EcosystemMap
  | [], k, v => [(k, v)]
  | p :: m, k, v => if p.1 == k then (k, v) :: m else p :: mapInsert m k v

/-- `HashMap::get`. -/
def lookupMap (m : EcosystemMap) (k : String) : Option Ecosystem :=
  (m.find? (fun p => p.1 == k)).map (fun p => p.2)

/-- Insert into a membership-modelled set (the global `repo_set`). -/
def insertSet (s : List String) (x : String) : List String :=
  if x ∈ s then s else x :: s

/-- All repo entries across the graph, in iteration order. -/
def allRepos (m : EcosystemMap) : List Repo :=
  ((valuesOf m).map ecoRepos).flatten

/-- `fn validate_ecosystems(ecosystem_map) -> ValidationStats` from
`src/main.rs` lines 248–347.  The Rust loop threads four independent
accumulators over the ecosystems — the error vector, the global `repo_set`,
`missing_count`, and a write-only tag counter that never reaches the
output — so each statistic is computed here by its own pass:  the error
list is the concatenation of the per-ecosystem contributions,
`repo_count` the number of distinct (case-sensitive) URLs, and
`missing_count` the number of entries flagged `missing = Some(true)`. -/
def validate_ecosystems (m : EcosystemMap) : ValidationStats :=
  { ecosystem_count := m.length
    repo_count := (((allRepos m).map (fun r => r.url)).foldl insertSet []).length
    missing_count := ((allRepos m).filter (fun r => r.missing == some true)).length
    errors := ((valuesOf m).map (ecoErrors (keysOf m))).flatten }

/-- `fn parse_toml_files` (lines 203–225), over the already-parsed record
files (§6: the TOML deserializer is an external collaborator, and a file
that fails to parse aborts the whole run before any map is built, so the
input here is the list of successfully parsed `(path, ecosystem)` pairs in
file order).  Each file contributes a `TitleError` when its title differs
from its trimmed form, then is inserted into the map keyed by its title —
overwriting any earlier file with the same title. -/
def parseTomlAux (acc : EcosystemMap × List ValidationError) :
    List (String × Ecosystem) → EcosystemMap × List ValidationError
  | [] => acc
  | f :: fs =>
    let errs := if trimStr f.2.title = f.2.title then acc.2
      else acc.2 ++ [ValidationError.TitleError f.1]
    parseTomlAux (mapInsert acc.1 f.2.title f.2, errs) fs

/-- See `parseTomlAux`. -/
def parse_toml_files (files : List (String × Ecosystem)) :
    EcosystemMap × List ValidationError :=
  parseTomlAux ([], []) files

/-! ## Canonical writer (`write_ecosystem_to_toml`) -/

/-- The repo sort key comparison of line 409
(`sort_by_key(|k| k.url.to_lowercase())`). -/
def urlRel (a b : Repo) : Prop := lowerLe a.url b.url = true

instance : DecidableRel urlRel := fun _ _ => Bool.decEq _ _

/-- Modelled from the spec: the external `toml` crate's `ValueSerializer`
rendering of one string (§6; the claims exercise only quote-free ASCII
data, where the serializer emits the string between plain double
quotes, exactly as the writer's hand-formatted `"{}"` fragments do). -/
def tomlString (s : String) : String := "\"" ++ s ++ "\""

/-- Modelled from the spec: the external `toml` crate's `ValueSerializer`
rendering of a string array, `["a", "b"]`. -/
def tomlArray (l : List String) : String :=
  "[" ++ intercalateStr ", " (l.map tomlString) ++ "]"

/-- Lines 363–366: the header comment and the `title` line. -/
def headerSection (eco : Ecosystem) : String :=
  "# Ecosystem Level Information\ntitle = " ++ tomlString eco.title ++ "\n\n"

/-- The sorted `sub_ecosystems` vector of lines 368–369. -/
def subVec (eco : Ecosystem) : List String :=
  sortByLower (match eco.sub_ecosystems with
    | some l => l
    | none => [])

/-- The sorted `github_organizations` vector of lines 387–389. -/
def orgVec (eco : Ecosystem) : List String :=
  sortByLower (match eco.github_organizations with
    | some l => l
    | none => [])

/-- Lines 370–385 and 390–405: render one simple array, switching to the
one-element-per-line form exactly when the serialized single-line array is
longer than `MAX_LINE_LENGTH = 80` (Rust measures bytes, Lean characters;
they agree on ASCII). -/
def arraySection (name : String) (vec : List String) : String :=
  let single := tomlArray vec
  if single.length > 80 then
    name ++ " = [\n" ++ joinStr (vec.map (fun s => "  " ++ tomlString s ++ ",\n")) ++ "]\n\n"
  else
    name ++ " = " ++ single ++ "\n\n"

/-- Line 408–409: the repo entries stably sorted by lower-cased URL. -/
def sortedRepos (eco : Ecosystem) : List Repo :=
  (ecoRepos eco).insertionSort urlRel

/-- The subsequence of repos the dedup loop of lines 410–416 actually
emits: the first entry of each lower-cased-URL group, in sort order. -/
def keptRepos : List Repo → List String → List Repo
  | [], _ => []
  | r :: rest, included =>
    if toLowerStr r.url ∈ included then keptRepos rest included
    else r :: keptRepos rest (toLowerStr r.url :: included)

/-- Line 418–425: the `tags` line, only for a present non-empty tag list. -/
def tagsPart (r : Repo) : String :=
  match r.tags with
  | some ts => if ts.isEmpty then "" else "tags = " ++ tomlArray ts ++ "\n"
  | none => ""

/-- Line 426–428: the `missing` line, only for `Some(true)`. -/
def missingPart (r : Repo) : String :=
  if r.missing = some true then "missing = true\n" else ""

/-- One `[[repo]]` block (lines 417–428). -/
def repoBlock (r : Repo) : String :=
  "[[repo]]\nurl = " ++ tomlString r.url ++ "\n" ++ tagsPart r ++ missingPart r

/-- The emission loop of lines 410–433: `total` is `sorted_repos.len()`,
`included` the set of already-emitted lower-cased URLs, `i` the number of
blocks emitted so far; a blank separator line follows a block whenever the
post-increment counter is still below `total` (note `total` counts the
pre-dedup entries). -/
def repoSectionAux (total : Nat) : List Repo → List String → Nat → String
  | [], _, _ => ""
  | r :: rest, included, i =>
    if toLowerStr r.url ∈ included then repoSectionAux total rest included i
    else
      repoBlock r ++ (if i + 1 < total then "\n" else "") ++
        repoSectionAux total rest (toLowerStr r.url :: included) (i + 1)

/-- The same loop applied to an already-deduplicated block list. -/
def blockConcat (total : Nat) : List Repo → Nat → String
  | [], _ => ""
  | r :: rest, i =>
    repoBlock r ++ (if i + 1 < total then "\n" else "") ++ blockConcat total rest (i + 1)

/-- Lines 407–433: the `# Repositories` section. -/
def repoSection (eco : Ecosystem) : String :=
  "# Repositories\n" ++ repoSectionAux (sortedRepos eco).length (sortedRepos eco) [] 0

/-- `fn write_ecosystem_to_toml` (lines 360–446), restricted to the
canonical text it builds in memory; path derivation (`canonical_path`) and
the file write are external I/O and carry no claim. -/
def write_ecosystem_to_toml (eco : Ecosystem) : String :=
  headerSection eco ++
  arraySection "sub_ecosystems" (subVec eco) ++
  arraySection "github_organizations" (orgVec eco) ++
  repoSection eco

/-! ## The reparsed canonical ecosystem (for the idempotence claim) -/

/-- Tags as they survive a canonical-text round trip: an absent or empty
tag list is not written, so it reads back as `None`. -/
def normalizeTags : Option (List String) → Option (List String)
  | some ts => if ts.isEmpty then none else some ts
  | none => none

/-- One repo as it survives a canonical-text round trip. -/
def reparseRepo (r : Repo) : Repo :=
  { url := r.url
    tags := normalizeTags r.tags
    missing := if r.missing = some true then some true else none }

/-- Modelled from the spec: the external `toml` deserializer applied to
the canonical text of `eco` (§6 treats parsing as an external
collaborator).  The canonical text carries the title, the two sorted
arrays, and one block per kept repo, with unwritten optional fields
reading back as `None`. -/
def reparse (eco : Ecosystem) : Ecosystem :=
  { title := eco.title
    github_organizations := some (orgVec eco)
    sub_ecosystems := some (subVec eco)
    repo := some ((keptRepos (sortedRepos eco) []).map reparseRepo) }

/-! ## Spec-side projections used by the claims -/

/-- Spec-side description of the duplicate entries of a repo walk: an
entry is a duplicate exactly when some entry earlier in the list (the
accumulated `pre`) has the same lower-cased URL. -/
def dupUrlsSpecAux (pre : List Repo) : List Repo → List String
  | [] => []
  | r :: rest =>
    (if pre.any (fun q => toLowerStr q.url == toLowerStr r.url) then [r.url] else []) ++
      dupUrlsSpecAux (pre ++ [r]) rest

/-- The URLs of the duplicate entries of a repo list, in walk order. -/
def dupUrlsSpec (repos : List Repo) : List String := dupUrlsSpecAux [] repos

/-- Recognizes `DuplicateRepoUrl` errors. -/
def isDupError : ValidationError → Bool
  | ValidationError.DuplicateRepoUrl _ => true
  | _ => false

/-- Recognizes the `UnsortedEcosystem` errors naming ecosystem `t`. -/
def isUnsortedFor (t : String) : ValidationError → Bool
  | ValidationError.UnsortedEcosystem u => u.ecosystem == t
  | _ => false

/-- The sub-ecosystem section diff of one ecosystem. -/
def subDiff (e : Ecosystem) : Option String :=
  match e.sub_ecosystems with
  | some subs => find_misordered_elements_diff subs
  | none => none

/-- The organizations section diff of one ecosystem. -/
def orgDiff (e : Ecosystem) : Option String :=
  match e.github_organizations with
  | some orgs => find_misordered_elements_diff orgs
  | none => none

/-- The repo section diff of one ecosystem. -/
def repoDiffOf (e : Ecosystem) : Option String :=
  match e.repo with
  | some repos => find_misordered_elements_diff (repos.map (fun r => r.url))
  | none => none

/-! ## Concrete instances used by the claims -/

/-- An ecosystem holding the two case-variant repos of the C3 scenario. -/
def demoDupEco : Ecosystem :=
  { title := "Demo"
    github_organizations := none
    sub_ecosystems := none
    repo := some
      [ { url := "https://github.com/a/b", tags := none, missing := none },
        { url := "https://GITHUB.com/a/b", tags := none, missing := none } ] }

/-- A one-ecosystem graph with an intra-ecosystem duplicate URL. -/
def demoDupMap : EcosystemMap := [("Demo", demoDupEco)]

/-- A two-ecosystem graph repeating one URL across ecosystems only. -/
def demoCrossMap : EcosystemMap :=
  [ ("X", { title := "X", github_organizations := none, sub_ecosystems := none,
            repo := some [{ url := "https://github.com/a/b", tags := none, missing := none }] }),
    ("Y", { title := "Y", github_organizations := none, sub_ecosystems := none,
            repo := some [{ url := "https://github.com/a/b", tags := none, missing := none }] }) ]

/-- An ecosystem whose repo URLs are sorted and duplicate-free while its
sub-ecosystem list is out of order. -/
def EC8 : Ecosystem :=
  { title := "Gamma"
    github_organizations := none
    sub_ecosystems := some ["b", "a"]
    repo := some
      [ { url := "https://github.com/a/a", tags := none, missing := none },
        { url := "https://github.com/a/b", tags := none, missing := none } ] }

/-- A one-ecosystem graph around `EC8`. -/
def mapC8 : EcosystemMap := [("Gamma", EC8)]

/-- An ecosystem with a misordered, tagged repo list. -/
def EC5 : Ecosystem :=
  { title := "Delta"
    github_organizations := none
    sub_ecosystems := none
    repo := some
      [ { url := "https://github.com/z/z", tags := some ["tagx"], missing := none },
        { url := "https://github.com/a/a", tags := none, missing := none } ] }

/-- A one-ecosystem graph around `EC5`. -/
def mapC5 : EcosystemMap := [("Delta", EC5)]

/-- The tagged repo of `EC5`. -/
def repoZTagged : Repo :=
  { url := "https://github.com/z/z", tags := some ["tagx"], missing := none }

/-- `EC5` with the same URLs but different tags and missing flags. -/
def EC5plain : Ecosystem :=
  { title := "Delta"
    github_organizations := none
    sub_ecosystems := none
    repo := some
      [ { url := "https://github.com/z/z", tags := none, missing := none },
        { url := "https://github.com/a/a", tags := none, missing := some true } ] }

/-- A small ecosystem exercising every part of the canonical writer. -/
def demoWriterEco : Ecosystem :=
  { title := "Beta"
    github_organizations := some ["zorg", "Aorg"]
    sub_ecosystems := some ["b", "a"]
    repo := some
      [ { url := "https://github.com/x/y", tags := some ["t1"], missing := some true } ] }

/-- The single repo of `demoWriterEco`. -/
def repoXY : Repo :=
  { url := "https://github.com/x/y", tags := some ["t1"], missing := some true }

/-- A one-element vector whose serialized array is exactly 80 characters
long (76 + the two quotes and two brackets). -/
def vec80 : List String :=
  ["aaaaaaaaaaaaaaaaaaaaaaaaaaaaaaaaaaaaaaaaaaaaaaaaaaaaaaaaaaaaaaaaaaaaaaaaaaaa"]

/-- A one-element vector whose serialized array is exactly 81 characters
long. -/
def vec81 : List String :=
  ["aaaaaaaaaaaaaaaaaaaaaaaaaaaaaaaaaaaaaaaaaaaaaaaaaaaaaaaaaaaaaaaaaaaaaaaaaaaaa"]

/-- First record file of the C10 title-collision scenario. -/
def demoEcoFirst : Ecosystem :=
  { title := "Same"
    github_organizations := none
    sub_ecosystems := none
    repo := some [{ url := "https://github.com/first/first", tags := none, missing := none }] }

/-- Second record file of the C10 title-collision scenario, same title. -/
def demoEcoSecond : Ecosystem :=
  { title := "Same"
    github_organizations := none
    sub_ecosystems := none
    repo := some [{ url := "https://github.com/second/second", tags := none, missing := none }] }

/-- Two successfully parsed record files carrying the same title. -/
def demoCollisionFiles : List (String × Ecosystem) :=
  [("a.toml", demoEcoFirst), ("b.toml", demoEcoSecond)]

/-! ## Order infrastructure lemmas -/

/-- `lexLe` is total. -/
theorem lexLe_total : ∀ (a b : List Char), lexLe a b = true ∨ lexLe b a = true
  | [], _ => Or.inl rfl
  | _ :: _, [] => Or.inr rfl
  | a :: as, b :: bs => by
    rcases lt_trichotomy a b with h | h | h
    · left
      simp [lexLe, h]
    · subst h
      simpa [lexLe] using lexLe_total as bs
    · right
      simp [lexLe, h]

/-- `lexLe` is transitive. -/
theorem lexLe_trans : ∀ (a b c : List Char),
    lexLe a b = true → lexLe b c = true → lexLe a c = true
  | [], _, _, _, _ => rfl
  | _ :: _, [], _, h, _ => by simp [lexLe] at h
  | _ :: _, _ :: _, [], _, h => by simp [lexLe] at h
  | a :: as, b :: bs, c :: cs, h1, h2 => by
    simp only [lexLe] at h1 h2 ⊢
    by_cases hab : a < b
    · by_cases hbc : b < c
      · simp [hab.trans hbc]
      · by_cases hbc' : b = c
        · subst hbc'
          simp [hab]
        · simp [hbc, hbc'] at h2
    · by_cases hab' : a = b
      · subst hab'
        by_cases hbc : a < c
        · simp [hbc]
        · by_cases hbc' : a = c
          · subst hbc'
            simp only [lt_irrefl, if_false, if_pos rfl] at h1 h2 ⊢
            exact lexLe_trans as bs cs h1 h2
          · simp [hbc, hbc'] at h2
      · simp [hab, hab'] at h1

instance : IsTotal String lowerRel :=
  ⟨fun a b => lexLe_total (toLowerStr a).data (toLowerStr b).data⟩

instance : IsTrans String lowerRel :=
  ⟨fun a b c => lexLe_trans (toLowerStr a).data (toLowerStr b).data (toLowerStr c).data⟩

instance : IsTotal Repo urlRel :=
  ⟨fun a b => lexLe_total (toLowerStr a.url).data (toLowerStr b.url).data⟩

instance : IsTrans Repo urlRel :=
  ⟨fun a b c => lexLe_trans (toLowerStr a.url).data (toLowerStr b.url).data (toLowerStr c.url).data⟩

/-! ## Helper lemmas on the diff engine -/

/-- A string that starts with the hunk header is not empty. -/
theorem headerAppend_ne_empty (s : String) : ("@@ -" ++ s) ≠ "" := by
  intro h
  have hd : (4 : Nat) + s.length = 0 := by
    have hl := congrArg String.length h
    rw [String.length_append] at hl
    exact hl
  omega

/-- The unified diff rendering is never the empty string. -/
theorem unifiedDiff_ne_empty (before after : List String) :
    unifiedDiff before after ≠ "" := by
  unfold unifiedDiff
  simpa [String.append_assoc] using
    headerAppend_ne_empty _

/-- The engine reports "already canonical" exactly on the lists that equal
their stable case-insensitive sort. -/
theorem find_misordered_none_iff (l : List String) :
    find_misordered_elements_diff l = none ↔ l = sortByLower l := by
  by_cases h : l = []
  · subst h
    exact iff_of_true (by decide) (by decide)
  · have hempty : l.isEmpty = false := by simpa [List.isEmpty_iff] using h
    by_cases hs : l = sortByLower l
    · refine iff_of_true ?_ hs
      unfold find_misordered_elements_diff
      rw [if_neg (by simp [hempty]), if_pos hs]
    · refine iff_of_false ?_ hs
      unfold find_misordered_elements_diff
      rw [if_neg (by simp [hempty]), if_neg hs]
      exact Option.some_ne_none _

/-- On a non-canonical list the engine returns exactly the unified diff
from the original lines to the sorted lines. -/
theorem find_misordered_some (l : List String) (h : l ≠ sortByLower l) :
    find_misordered_elements_diff l = some (unifiedDiff l (sortByLower l)) := by
  have hne : l ≠ [] := by
    intro he
    subst he
    exact h (by decide)
  have hempty : l.isEmpty = false := by simpa [List.isEmpty_iff] using hne
  unfold find_misordered_elements_diff
  rw [if_neg (by simp [hempty]), if_neg h]

/-! ## Claim theorems -/

/-- C1.  The URL classifier is total: every string is mapped to one of the
six categories (`parse_repo_url_type` is a total function into the
six-constructor `RepoUrlType`), and the six sample inputs classify as the
spec states. -/
theorem urlClassifierTotality :
    (∀ s : String,
      parse_repo_url_type s = RepoUrlType.GithubRepository ∨
      parse_repo_url_type s = RepoUrlType.GithubUnnormalized ∨
      parse_repo_url_type s = RepoUrlType.GithubUserOrOrganization ∨
      parse_repo_url_type s = RepoUrlType.GithubTreeish ∨
      parse_repo_url_type s = RepoUrlType.OtherServiceRepository ∨
      parse_repo_url_type s = RepoUrlType.InvalidUrl) ∧
    parse_repo_url_type "https://github.com/foo/bar" = RepoUrlType.GithubRepository ∧
    parse_repo_url_type "https://github.com/foo/bar/" = RepoUrlType.GithubUnnormalized ∧
    parse_repo_url_type "https://github.com/foo" = RepoUrlType.GithubUserOrOrganization ∧
    parse_repo_url_type "https://github.com/foo/bar/tree/main" = RepoUrlType.GithubTreeish ∧
    parse_repo_url_type "https://gitlab.com/foo/bar" = RepoUrlType.OtherServiceRepository ∧
    parse_repo_url_type "not a url" = RepoUrlType.InvalidUrl := by
  refine ⟨fun s => ?_, by decide, by decide, by decide, by decide, by decide, by decide⟩
  cases h : parse_repo_url_type s <;> simp

/-- C2.  The ordering/diff engine returns no diagnostic exactly when the
input equals its canonical copy — the stable (witnessed by the
pair-sublist conjunct) case-insensitive sort (sorted and a permutation of
the input) — and otherwise returns the non-empty unified diff from the
original lines to that sorted copy; `["b", "a"]` yields a non-empty diff
toward `["a", "b"]` and `["a", "b"]` yields no diagnostic. -/
theorem orderingDiffEngineSpec :
    (∀ l : List String, find_misordered_elements_diff l = none ↔ l = sortByLower l) ∧
    (∀ l : List String, l ≠ sortByLower l →
      find_misordered_elements_diff l = some (unifiedDiff l (sortByLower l)) ∧
      unifiedDiff l (sortByLower l) ≠ "") ∧
    (∀ l : List String, List.Sorted lowerRel (sortByLower l)) ∧
    (∀ l : List String, List.Perm (sortByLower l) l) ∧
    (∀ (l : List String) (a b : String), List.Sublist [a, b] l → lowerLe a b = true →
      List.Sublist [a, b] (sortByLower l)) ∧
    sortByLower ["b", "a"] = ["a", "b"] ∧
    find_misordered_elements_diff ["b", "a"] = some (unifiedDiff ["b", "a"] ["a", "b"]) ∧
    unifiedDiff ["b", "a"] ["a", "b"] ≠ "" ∧
    find_misordered_elements_diff ["a", "b"] = none := by
  refine ⟨find_misordered_none_iff,
    fun l h => ⟨find_misordered_some l h, unifiedDiff_ne_empty _ _⟩,
    fun l => List.sorted_insertionSort lowerRel l,
    fun l => List.perm_insertionSort lowerRel l,
    fun l a b hsub hle => List.pair_sublist_insertionSort hle hsub,
    by decide, ?_, unifiedDiff_ne_empty _ _, by decide⟩
  have : sortByLower ["b", "a"] = ["a", "b"] := by decide
  rw [find_misordered_some _ (by decide), this]

/-- C2 witness: the implication instantiated at `["b", "a"]` and the
stability conjunct at a two-element tie. -/
theorem orderingDiffEngineWitness :
    (find_misordered_elements_diff ["b", "a"] =
        some (unifiedDiff ["b", "a"] (sortByLower ["b", "a"])) ∧
      unifiedDiff ["b", "a"] (sortByLower ["b", "a"]) ≠ "") ∧
    List.Sublist ["a", "A"] (sortByLower ["a", "A"]) :=
  ⟨orderingDiffEngineSpec.2.1 ["b", "a"] (by decide),
   orderingDiffEngineSpec.2.2.2.2.1 ["a", "A"] "a" "A" (by decide) (by decide)⟩

/-! ## Duplicate-URL characterization (C3) -/

/-- Filtering distributes over a flattened list of lists. -/
theorem filter_flatten {α : Type} (p : α → Bool) :
    ∀ L : List (List α), L.flatten.filter p = (L.map (fun l => l.filter p)).flatten
  | [] => rfl
  | l :: L => by
    simp only [List.flatten_cons, List.filter_append, List.map_cons]
    rw [filter_flatten p L]

/-- The duplicate errors of the per-repo walk are exactly the entries
whose lower-cased URL occurs on an earlier entry, provided `seen` holds
exactly the lower-cased URLs of the already-walked prefix `pre`. -/
theorem filter_isDup_repoEntryErrors (rest : List Repo) :
    ∀ (pre : List Repo) (seen : List String),
    (∀ x, x ∈ seen ↔ ∃ q ∈ pre, toLowerStr q.url = x) →
    (repoEntryErrors seen rest).filter isDupError =
      (dupUrlsSpecAux pre rest).map ValidationError.DuplicateRepoUrl := by
  induction rest with
  | nil => intro pre seen _; rfl
  | cons r rest ih =>
    intro pre seen hinv
    have hmem : toLowerStr r.url ∈ seen ↔
        pre.any (fun q => toLowerStr q.url == toLowerStr r.url) = true := by
      rw [hinv]
      simp [List.any_eq_true]
    have hinv' : ∀ x, x ∈ (if toLowerStr r.url ∈ seen then seen
        else toLowerStr r.url :: seen) ↔ ∃ q ∈ pre ++ [r], toLowerStr q.url = x := by
      intro x
      by_cases hd : toLowerStr r.url ∈ seen
      · rw [if_pos hd, hinv]
        constructor
        · rintro ⟨q, hq, he⟩
          exact ⟨q, by simp [hq], he⟩
        · rintro ⟨q, hq, he⟩
          rcases (by simpa using hq : q ∈ pre ∨ q = r) with hq' | hq'
          · exact ⟨q, hq', he⟩
          · subst hq'
            exact (hinv x).mp (he ▸ hd)
      · rw [if_neg hd]
        constructor
        · intro hx
          rcases List.mem_cons.mp hx with he | hx'
          · exact ⟨r, by simp, he.symm⟩
          · obtain ⟨q, hq, he⟩ := (hinv x).mp hx'
            exact ⟨q, by simp [hq], he⟩
        · rintro ⟨q, hq, he⟩
          rcases List.mem_append.mp hq with hq' | hq'
          · exact List.mem_cons.mpr (Or.inr ((hinv x).mpr ⟨q, hq', he⟩))
          · have hqr : q = r := by simpa using hq'
            subst hqr
            exact List.mem_cons.mpr (Or.inl he.symm)
    simp only [repoEntryErrors, dupUrlsSpecAux, List.filter_append]
    by_cases hd : toLowerStr r.url ∈ seen
    · rw [if_pos hd, if_pos hd, if_pos (hmem.mp hd)]
      rw [ih (pre ++ [r]) seen (by simpa [if_pos hd] using hinv')]
      cases hiu : isInvalidUrlType (parse_repo_url_type r.url) <;>
        simp [isDupError]
    · rw [if_neg hd, if_neg hd, if_neg (fun hc => hd (hmem.mpr hc))]
      rw [ih (pre ++ [r]) (toLowerStr r.url :: seen)
        (by simpa [if_neg hd] using hinv')]
      cases hiu : isInvalidUrlType (parse_repo_url_type r.url) <;>
        simp [isDupError]

/-- Per-ecosystem duplicate errors: exactly the spec-side duplicate
entries of its repo walk. -/
theorem filter_isDup_ecoErrors (keys : List String) (e : Ecosystem) :
    (ecoErrors keys e).filter isDupError =
      (dupUrlsSpec (ecoRepos e)).map ValidationError.DuplicateRepoUrl := by
  obtain ⟨title, orgs, subs, repos⟩ := e
  simp only [ecoErrors, ecoRepos, List.filter_append]
  have h1 : ∀ l : List String,
      ((l.map (fun sub => ValidationError.MissingSubecosystem title sub)).filter
        isDupError) = [] := by
    intro l
    induction l with
    | nil => rfl
    | cons a l ih => simp [isDupError, ih]
  have h2 : (match subs with
      | some s =>
        ((s.filter (fun sub => !(keys.contains sub))).map
          (fun sub => ValidationError.MissingSubecosystem title sub))
      | none => ([] : List ValidationError)).filter isDupError = [] := by
    cases subs with
    | some s => exact h1 _
    | none => rfl
  have h3 : (match repos with
      | some rs => repoEntryErrors [] rs
      | none => ([] : List ValidationError)).filter isDupError =
      (dupUrlsSpec (match repos with
        | some rs => rs
        | none => ([] : List Repo))).map ValidationError.DuplicateRepoUrl := by
    cases repos with
    | some rs =>
      exact filter_isDup_repoEntryErrors rs [] [] (by simp)
    | none => rfl
  rw [h2, h3]
  cases hsome : (match subs with
      | some s => find_misordered_elements_diff s
      | none => none : Option String).isSome ||
    ((match orgs with
      | some o => find_misordered_elements_diff o
      | none => none : Option String).isSome ||
    (match repos with
      | some rs => find_misordered_elements_diff (rs.map (fun r => r.url))
      | none => none : Option String).isSome) <;>
    split <;> simp_all [isDupError]

/-- C3.  The `DuplicateRepoUrl` errors of a validation run are exactly,
ecosystem by ecosystem in iteration order, the repo entries whose
lower-cased URL already occurred earlier in the same ecosystem; the
two-repo case-variant scenario yields exactly one error, and repeating a
URL across two ecosystems yields none. -/
theorem duplicateRepoUrlPerEcosystem :
    (∀ m : EcosystemMap,
      (validate_ecosystems m).errors.filter isDupError =
        ((valuesOf m).map
          (fun e => (dupUrlsSpec (ecoRepos e)).map ValidationError.DuplicateRepoUrl)).flatten) ∧
    (validate_ecosystems demoDupMap).errors.filter isDupError =
      [ValidationError.DuplicateRepoUrl "https://GITHUB.com/a/b"] ∧
    (validate_ecosystems demoCrossMap).errors.filter isDupError = [] := by
  refine ⟨fun m => ?_, by decide, by decide⟩
  show (((valuesOf m).map (ecoErrors (keysOf m))).flatten).filter isDupError = _
  rw [filter_flatten, List.map_map]
  have he : (fun e => (ecoErrors (keysOf m) e).filter isDupError) =
      fun e => (dupUrlsSpec (ecoRepos e)).map ValidationError.DuplicateRepoUrl :=
    funext (fun e => filter_isDup_ecoErrors (keysOf m) e)
  rw [Function.comp_def, he]

/-! ## Unsorted-error characterization (C4, C5, C8) -/

/-- The per-repo walk never emits an `UnsortedEcosystem` error. -/
theorem filter_isUnsortedFor_repoEntryErrors (t : String) (rest : List Repo) :
    ∀ seen : List String,
    (repoEntryErrors seen rest).filter (isUnsortedFor t) = [] := by
  induction rest with
  | nil => intro seen; rfl
  | cons r rest ih =>
    intro seen
    simp only [repoEntryErrors, List.filter_append]
    rw [ih]
    by_cases hd : toLowerStr r.url ∈ seen <;>
      cases hiu : isInvalidUrlType (parse_repo_url_type r.url) <;>
        simp [hd, hiu, isUnsortedFor]

/-- The sorting-related errors one ecosystem contributes, filtered by name:
the single aggregated error when it is named and some section is
non-canonical, nothing otherwise. -/
theorem ecoErrors_filter_unsorted (keys : List String) (e : Ecosystem) (t : String) :
    (ecoErrors keys e).filter (isUnsortedFor t) =
      if t = e.title then
        (if (subDiff e).isSome || (orgDiff e).isSome || (repoDiffOf e).isSome then
          [ValidationError.UnsortedEcosystem
            { ecosystem := e.title, repo_diff := repoDiffOf e,
              sub_eco_diff := subDiff e, github_org_diff := orgDiff e }]
        else [])
      else [] := by
  obtain ⟨title, orgs, subs, repos⟩ := e
  simp only [ecoErrors, subDiff, orgDiff, repoDiffOf, List.filter_append]
  have h1 : ∀ l : List String,
      ((l.map (fun sub => ValidationError.MissingSubecosystem title sub)).filter
        (isUnsortedFor t)) = [] := by
    intro l
    induction l with
    | nil => rfl
    | cons a l ih => simp [isUnsortedFor, ih]
  have h2 : (match subs with
      | some s =>
        ((s.filter (fun sub => !(keys.contains sub))).map
          (fun sub => ValidationError.MissingSubecosystem title sub))
      | none => ([] : List ValidationError)).filter (isUnsortedFor t) = [] := by
    cases subs with
    | some s => exact h1 _
    | none => rfl
  have h3 : (match repos with
      | some rs => repoEntryErrors [] rs
      | none => ([] : List ValidationError)).filter (isUnsortedFor t) = [] := by
    cases repos with
    | some rs => exact filter_isUnsortedFor_repoEntryErrors t rs []
    | none => rfl
  rw [h2, h3]
  by_cases ht : t = title
  · subst ht
    rw [if_pos rfl]
    split <;> split <;> simp_all [isUnsortedFor]
  · rw [if_neg ht]
    have hne : (title == t) = false := by
      simp only [beq_eq_false_iff_ne, ne_eq]
      exact fun h => ht h.symm
    split <;> split <;> simp [isUnsortedFor, hne]

/-- An `UnsortedEcosystem` error contributed by an ecosystem is the
aggregated record of its three section diffs. -/
theorem unsorted_mem_ecoErrors (keys : List String) (e : Ecosystem)
    (u : UnsortedEcosystem)
    (hmem : ValidationError.UnsortedEcosystem u ∈ ecoErrors keys e) :
    u = { ecosystem := e.title, repo_diff := repoDiffOf e,
          sub_eco_diff := subDiff e, github_org_diff := orgDiff e } := by
  have hf : ValidationError.UnsortedEcosystem u ∈
      (ecoErrors keys e).filter (isUnsortedFor u.ecosystem) := by
    simp only [List.mem_filter]
    exact ⟨hmem, by simp [isUnsortedFor]⟩
  rw [ecoErrors_filter_unsorted] at hf
  by_cases ht : u.ecosystem = e.title
  · rw [if_pos ht] at hf
    rcases hb : ((subDiff e).isSome || (orgDiff e).isSome || (repoDiffOf e).isSome) with _ | _
    · rw [hb] at hf
      simp at hf
    · rw [hb] at hf
      simp only [if_true] at hf
      have := List.mem_singleton.mp hf
      exact (ValidationError.UnsortedEcosystem.injEq _ _).mp this
  · rw [if_neg ht] at hf
    simp at hf

/-- If no ecosystem of the list carries the name, no flattened error
does. -/
theorem flatten_filter_unsorted_nil (keys : List String) (t : String) :
    ∀ L : List Ecosystem, t ∉ L.map (fun x => x.title) →
    ((L.map (ecoErrors keys)).flatten).filter (isUnsortedFor t) = [] := by
  intro L
  induction L with
  | nil => intro _; rfl
  | cons a L ih =>
    intro hnot
    simp only [List.map_cons, List.mem_cons] at hnot
    push_neg at hnot
    obtain ⟨h1, h2⟩ := hnot
    simp only [List.map_cons, List.flatten_cons, List.filter_append]
    rw [ecoErrors_filter_unsorted, if_neg h1, ih h2]
    rfl

/-- Map-level aggregation: filtering the validation errors by an
ecosystem's name yields exactly that ecosystem's aggregated sorting error
(or nothing), provided the graph's titles are distinct (the hash map is
keyed by title). -/
theorem errors_filter_unsorted (m : EcosystemMap) (e : Ecosystem)
    (hmem : e ∈ valuesOf m)
    (hnd : ((valuesOf m).map (fun x => x.title)).Nodup) :
    (validate_ecosystems m).errors.filter (isUnsortedFor e.title) =
      (if (subDiff e).isSome || (orgDiff e).isSome || (repoDiffOf e).isSome then
        [ValidationError.UnsortedEcosystem
          { ecosystem := e.title, repo_diff := repoDiffOf e,
            sub_eco_diff := subDiff e, github_org_diff := orgDiff e }]
      else []) := by
  show (((valuesOf m).map (ecoErrors (keysOf m))).flatten).filter (isUnsortedFor e.title) = _
  revert hmem hnd
  generalize valuesOf m = L
  intro hmem hnd
  induction L with
  | nil => cases hmem
  | cons a L ih =>
    simp only [List.map_cons, List.flatten_cons, List.filter_append]
    rcases List.mem_cons.mp hmem with he | he
    · subst he
      rw [ecoErrors_filter_unsorted, if_pos rfl,
        flatten_filter_unsorted_nil (keysOf m) e.title L
          (by simpa using (List.nodup_cons.mp hnd).1),
        List.append_nil]
    · have hne : e.title ≠ a.title := by
        intro hcontra
        apply (List.nodup_cons.mp hnd).1
        have hin : e.title ∈ L.map (fun x => x.title) :=
          List.mem_map_of_mem (fun x => x.title) he
        rwa [hcontra] at hin
      rw [ecoErrors_filter_unsorted, if_neg hne,
        ih he (List.nodup_cons.mp hnd).2]
      rfl

/-- C4.  Per ecosystem there is at most one `UnsortedEcosystem` error; it
is present exactly when one of the three section lists is non-canonical
(a list is non-canonical exactly when its diff is reported, first
conjunct), and the single error aggregates whichever of the three section
diffs exist. -/
theorem unsortedEcosystemAggregated :
    (∀ l : List String, (find_misordered_elements_diff l).isSome ↔ l ≠ sortByLower l) ∧
    ∀ (m : EcosystemMap) (e : Ecosystem), e ∈ valuesOf m →
      ((valuesOf m).map (fun x => x.title)).Nodup →
      (validate_ecosystems m).errors.filter (isUnsortedFor e.title) =
        (if (subDiff e).isSome || (orgDiff e).isSome || (repoDiffOf e).isSome then
          [ValidationError.UnsortedEcosystem
            { ecosystem := e.title, repo_diff := repoDiffOf e,
              sub_eco_diff := subDiff e, github_org_diff := orgDiff e }]
        else []) ∧
      ((validate_ecosystems m).errors.filter (isUnsortedFor e.title)).length ≤ 1 := by
  constructor
  · intro l
    exact Option.isSome_iff_ne_none.trans (not_congr (find_misordered_none_iff l))
  · intro m e hmem hnd
    refine ⟨errors_filter_unsorted m e hmem hnd, ?_⟩
    rw [errors_filter_unsorted m e hmem hnd]
    split <;> simp

/-- C4 witness: the aggregation instantiated on the one-ecosystem graph
around `EC8` (unsorted sub-ecosystems) and the diff/non-canonical bridge
at `["b", "a"]`. -/
theorem unsortedEcosystemAggregatedWitness :
    ((find_misordered_elements_diff ["b", "a"]).isSome ↔ ["b", "a"] ≠ sortByLower ["b", "a"]) ∧
    ((validate_ecosystems mapC8).errors.filter (isUnsortedFor EC8.title) =
      (if (subDiff EC8).isSome || (orgDiff EC8).isSome || (repoDiffOf EC8).isSome then
        [ValidationError.UnsortedEcosystem
          { ecosystem := EC8.title, repo_diff := repoDiffOf EC8,
            sub_eco_diff := subDiff EC8, github_org_diff := orgDiff EC8 }]
      else []) ∧
      ((validate_ecosystems mapC8).errors.filter (isUnsortedFor EC8.title)).length ≤ 1) :=
  ⟨unsortedEcosystemAggregated.1 ["b", "a"],
   unsortedEcosystemAggregated.2 mapC8 EC8 (by decide) (by decide)⟩

/-- `repoDiffOf` is the diff engine applied to the URL projection. -/
theorem repoDiffOf_eq (e : Ecosystem) :
    repoDiffOf e = find_misordered_elements_diff ((ecoRepos e).map (fun r => r.url)) := by
  unfold repoDiffOf ecoRepos
  cases e.repo <;> rfl

/-- A repo walk with no case-insensitive URL repetition past the prefix
`pre` reports no duplicates. -/
theorem dupUrlsSpecAux_eq_nil (rest : List Repo) :
    ∀ pre : List Repo,
    (((pre ++ rest).map (fun r => toLowerStr r.url)).Nodup) →
    dupUrlsSpecAux pre rest = [] := by
  induction rest with
  | nil => intro _ _; rfl
  | cons r rest ih =>
    intro pre hnd
    have hnone : pre.any (fun q => toLowerStr q.url == toLowerStr r.url) = false := by
      by_contra hc
      rw [Bool.not_eq_false, List.any_eq_true] at hc
      obtain ⟨q, hq, hbeq⟩ := hc
      have heq : toLowerStr q.url = toLowerStr r.url := by simpa using hbeq
      rw [List.map_append, List.nodup_append] at hnd
      exact hnd.2.2
        (heq ▸ List.mem_map_of_mem (fun x => toLowerStr x.url) hq)
        (List.mem_map_of_mem (fun x => toLowerStr x.url) (List.mem_cons_self r rest))
    rw [dupUrlsSpecAux, hnone]
    simp only [Bool.false_eq_true, if_false, List.nil_append]
    exact ih (pre ++ [r]) (by simpa [List.append_assoc] using hnd)

/-- C5 (amended).  The repo-section remediation diff is computed from the
repos' URL strings alone: an emitted `UnsortedEcosystem` error always
carries `repoDiffOf e`, which depends only on the URL projection (tags and
missing flags cannot change it) — it renders URLs one per line, not full
`[[repo]]` records. -/
theorem repoDiffRendersUrls :
    (∀ (keys : List String) (e : Ecosystem) (u : UnsortedEcosystem),
      ValidationError.UnsortedEcosystem u ∈ ecoErrors keys e →
      u.repo_diff = find_misordered_elements_diff ((ecoRepos e).map (fun r => r.url))) ∧
    (∀ e e' : Ecosystem,
      (ecoRepos e).map (fun r => r.url) = (ecoRepos e').map (fun r => r.url) →
      repoDiffOf e = repoDiffOf e') := by
  constructor
  · intro keys e u hmem
    have hu := unsorted_mem_ecoErrors keys e u hmem
    rw [hu, ← repoDiffOf_eq]
  · intro e e' hurls
    rw [repoDiffOf_eq, repoDiffOf_eq, hurls]

/-- C5 counterexample: on the concrete misordered tagged repo list, the
emitted repo diff exists but contains neither a `[[repo]]` block header
nor the repo's tag — it is not a rendering of full `[[repo]]` records. -/
theorem repoDiffNoRepoRecordsCex :
    (validate_ecosystems mapC5).errors.filter (isUnsortedFor "Delta") =
      [ValidationError.UnsortedEcosystem
        { ecosystem := "Delta", repo_diff := repoDiffOf EC5,
          sub_eco_diff := none, github_org_diff := none }] ∧
    (repoDiffOf EC5).isSome = true ∧
    strContains ((repoDiffOf EC5).getD "") "[[repo]]" = false ∧
    strContains ((repoDiffOf EC5).getD "") "tagx" = false ∧
    strContains (repoBlock repoZTagged) "[[repo]]" = true :=
  ⟨by decide, by decide, by decide, by decide, by decide⟩

/-- C5 witness: the amended statement instantiated on `EC5` and its
tag-stripped variant. -/
theorem repoDiffRendersUrlsWitness :
    (UnsortedEcosystem.repo_diff
      { ecosystem := "Delta", repo_diff := repoDiffOf EC5,
        sub_eco_diff := none, github_org_diff := none } =
      find_misordered_elements_diff ((ecoRepos EC5).map (fun r => r.url))) ∧
    repoDiffOf EC5 = repoDiffOf EC5plain :=
  ⟨repoDiffRendersUrls.1 ["Delta"] EC5
      { ecosystem := "Delta", repo_diff := repoDiffOf EC5,
        sub_eco_diff := none, github_org_diff := none } (by decide),
   repoDiffRendersUrls.2 EC5 EC5plain (by decide)⟩

/-- C8 counterexample: `EC8` has its repo URLs already sorted
case-insensitively with no case-insensitive duplicates, yet validation
emits an `UnsortedEcosystem` error for it (its sub-ecosystem list is out
of order), contradicting the claim as stated. -/
theorem sortedRepoListCex :
    ((ecoRepos EC8).map (fun r => r.url) =
      sortByLower ((ecoRepos EC8).map (fun r => r.url))) ∧
    ((ecoRepos EC8).map (fun r => toLowerStr r.url)).Nodup ∧
    (validate_ecosystems mapC8).errors.filter (isUnsortedFor EC8.title) ≠ [] :=
  ⟨by decide, by decide, by decide⟩

/-- C8 (amended).  An ecosystem whose repo URLs are already sorted
case-insensitively with no case-insensitive duplicates receives no
`DuplicateRepoUrl` error and no repo-section diff: its repo diff is
`none`, and any `UnsortedEcosystem` error named after it (under distinct
graph titles) carries `repo_diff = none` — such an error can still exist
for its other two lists. -/
theorem sortedRepoListNoRepoErrors :
    ∀ e : Ecosystem,
      (ecoRepos e).map (fun r => r.url) = sortByLower ((ecoRepos e).map (fun r => r.url)) →
      ((ecoRepos e).map (fun r => toLowerStr r.url)).Nodup →
      repoDiffOf e = none ∧
      (∀ keys : List String, (ecoErrors keys e).filter isDupError = []) ∧
      (∀ m : EcosystemMap, e ∈ valuesOf m →
        ((valuesOf m).map (fun x => x.title)).Nodup →
        ∀ u : UnsortedEcosystem,
          ValidationError.UnsortedEcosystem u ∈ (validate_ecosystems m).errors →
          u.ecosystem = e.title → u.repo_diff = none) := by
  intro e hsorted hnd
  have hdiff : repoDiffOf e = none := by
    rw [repoDiffOf_eq]
    exact (find_misordered_none_iff _).mpr hsorted
  refine ⟨hdiff, ?_, ?_⟩
  · intro keys
    rw [filter_isDup_ecoErrors]
    rw [show dupUrlsSpec (ecoRepos e) = [] from
      dupUrlsSpecAux_eq_nil (ecoRepos e) [] (by simpa using hnd)]
    rfl
  · intro m hmem hnodup u humem htitle
    have hflat := List.mem_flatten.mp humem
    obtain ⟨errs, herrs, hu⟩ := hflat
    obtain ⟨e', he', heq⟩ := List.mem_map.mp herrs
    subst heq
    have hue := unsorted_mem_ecoErrors (keysOf m) e' u hu
    have hte : e'.title = e.title := by
      have := congrArg UnsortedEcosystem.ecosystem hue
      simp at this
      rw [← htitle, this]
    have hee : e' = e := List.inj_on_of_nodup_map hnodup he' hmem hte
    subst hee
    rw [hue]
    exact hdiff

/-- C8 witness: the amended statement instantiated on `EC8` inside
`mapC8`. -/
theorem sortedRepoListNoRepoErrorsWitness :
    repoDiffOf EC8 = none ∧
    (∀ keys : List String, (ecoErrors keys EC8).filter isDupError = []) ∧
    (∀ m : EcosystemMap, EC8 ∈ valuesOf m →
      ((valuesOf m).map (fun x => x.title)).Nodup →
      ∀ u : UnsortedEcosystem,
        ValidationError.UnsortedEcosystem u ∈ (validate_ecosystems m).errors →
        u.ecosystem = EC8.title → u.repo_diff = none) :=
  sortedRepoListNoRepoErrors EC8 (by decide) (by decide)

/-! ## Writer lemmas (C6, C7, C9) -/

/-- A string with a non-empty left part is not empty when appended. -/
theorem appendLeft_ne_empty (a s : String) (h : 0 < a.length) : (a ++ s) ≠ "" := by
  intro hc
  have hl := congrArg String.length hc
  rw [String.length_append] at hl
  have h0 : ("" : String).length = 0 := rfl
  rw [h0] at hl
  omega

/-- Membership in the dedup loop's output: the lower-cased URLs that occur
in the input and are not already excluded. -/
theorem mem_keptRepos (rs : List Repo) :
    ∀ (inc : List String) (u : String),
    u ∈ (keptRepos rs inc).map (fun r => toLowerStr r.url) ↔
      (u ∈ rs.map (fun r => toLowerStr r.url) ∧ u ∉ inc) := by
  induction rs with
  | nil => intro inc u; simp [keptRepos]
  | cons r rs ih =>
    intro inc u
    by_cases hd : toLowerStr r.url ∈ inc
    · rw [keptRepos, if_pos hd, ih]
      simp only [List.map_cons, List.mem_cons]
      constructor
      · rintro ⟨hu, hinc⟩
        exact ⟨Or.inr hu, hinc⟩
      · rintro ⟨hu | hu, hinc⟩
        · exact absurd (hu ▸ hd) hinc
        · exact ⟨hu, hinc⟩
    · rw [keptRepos, if_neg hd]
      simp only [List.map_cons, List.mem_cons, ih, List.mem_cons]
      constructor
      · rintro (hu | ⟨hu, hninc⟩)
        · exact ⟨Or.inl hu, hu ▸ hd⟩
        · exact ⟨Or.inr hu, fun hc => hninc (Or.inr hc)⟩
      · rintro ⟨hu | hu, hninc⟩
        · exact Or.inl hu
        · by_cases hur : u = toLowerStr r.url
          · exact Or.inl hur
          · exact Or.inr ⟨hu, fun hc => hc.elim hur hninc⟩

/-- The dedup loop emits each lower-cased URL at most once. -/
theorem nodup_keptRepos (rs : List Repo) :
    ∀ inc : List String, ((keptRepos rs inc).map (fun r => toLowerStr r.url)).Nodup := by
  induction rs with
  | nil => intro inc; exact List.nodup_nil
  | cons r rs ih =>
    intro inc
    by_cases hd : toLowerStr r.url ∈ inc
    · rw [keptRepos, if_pos hd]
      exact ih inc
    · rw [keptRepos, if_neg hd]
      rw [List.map_cons, List.nodup_cons]
      constructor
      · intro hc
        exact ((mem_keptRepos rs _ _).mp hc).2 (List.mem_cons_self _ _)
      · exact ih _

/-- The dedup loop's output is a subsequence of its input. -/
theorem keptRepos_sublist (rs : List Repo) :
    ∀ inc : List String, List.Sublist (keptRepos rs inc) rs := by
  induction rs with
  | nil => intro inc; exact List.Sublist.refl _
  | cons r rs ih =>
    intro inc
    by_cases hd : toLowerStr r.url ∈ inc
    · rw [keptRepos, if_pos hd]
      exact (ih inc).cons r
    · rw [keptRepos, if_neg hd]
      exact (ih _).cons₂ r

/-- Each kept entry is the first entry of its lower-cased-URL group. -/
theorem find?_keptRepos (rs : List Repo) :
    ∀ (inc : List String) (r : Repo), r ∈ keptRepos rs inc →
    rs.find? (fun q => toLowerStr q.url == toLowerStr r.url) = some r := by
  induction rs with
  | nil => intro inc r hr; cases hr
  | cons q rs ih =>
    intro inc r hr
    by_cases hd : toLowerStr q.url ∈ inc
    · rw [keptRepos, if_pos hd] at hr
      have hne : (toLowerStr q.url == toLowerStr r.url) = false := by
        have hrn : toLowerStr r.url ∉ inc :=
          ((mem_keptRepos rs inc _).mp
            (List.mem_map_of_mem (fun x => toLowerStr x.url) hr)).2
        simp only [beq_eq_false_iff_ne, ne_eq]
        intro hc
        exact hrn (hc ▸ hd)
      rw [List.find?_cons_of_neg _ (by simp [hne]), ih inc r hr]
    · rw [keptRepos, if_neg hd] at hr
      rcases List.mem_cons.mp hr with he | hr'
      · subst he
        rw [List.find?_cons_of_pos _ (by simp)]
      · have hrn : toLowerStr r.url ∉ (toLowerStr q.url :: inc) :=
          ((mem_keptRepos rs _ _).mp
            (List.mem_map_of_mem (fun x => toLowerStr x.url) hr')).2
        have hne : (toLowerStr q.url == toLowerStr r.url) = false := by
          simp only [beq_eq_false_iff_ne, ne_eq]
          intro hc
          exact hrn (hc ▸ List.mem_cons_self _ _)
        rw [List.find?_cons_of_neg _ (by simp [hne]), ih _ r hr']

/-- The emission loop renders exactly the kept entries. -/
theorem repoSectionAux_eq_blockConcat (total : Nat) (rs : List Repo) :
    ∀ (inc : List String) (i : Nat),
    repoSectionAux total rs inc i = blockConcat total (keptRepos rs inc) i := by
  induction rs with
  | nil => intro inc i; rfl
  | cons r rs ih =>
    intro inc i
    by_cases hd : toLowerStr r.url ∈ inc
    · rw [repoSectionAux, if_pos hd, keptRepos, if_pos hd, ih]
    · rw [repoSectionAux, if_neg hd, keptRepos, if_neg hd, blockConcat, ih]

/-- C6.  The repository section renders exactly one `[[repo]]` block per
distinct lower-cased URL (no URL twice, none dropped), in ascending
case-insensitive URL order, keeping the first entry of each duplicate
group under that order; each block emits `url`, then `tags` only when
present and non-empty, then `missing = true` only when the flag is set;
absent fields produce no text at all. -/
theorem repoSectionCanonicalForm :
    (∀ e : Ecosystem,
      ((keptRepos (sortedRepos e) []).map (fun r => toLowerStr r.url)).Nodup ∧
      (∀ u : String, u ∈ (ecoRepos e).map (fun r => toLowerStr r.url) ↔
        u ∈ (keptRepos (sortedRepos e) []).map (fun r => toLowerStr r.url)) ∧
      List.Pairwise urlRel (keptRepos (sortedRepos e) []) ∧
      (∀ r ∈ keptRepos (sortedRepos e) [],
        (sortedRepos e).find? (fun q => toLowerStr q.url == toLowerStr r.url) = some r) ∧
      repoSection e = "# Repositories\n" ++
        blockConcat (sortedRepos e).length (keptRepos (sortedRepos e) []) 0) ∧
    (∀ r : Repo, repoBlock r =
      "[[repo]]\nurl = " ++ tomlString r.url ++ "\n" ++ tagsPart r ++ missingPart r) ∧
    ∀ r : Repo,
      (tagsPart r = "" ↔ (r.tags = none ∨ r.tags = some [])) ∧
      (∀ ts, r.tags = some ts → ts ≠ [] → tagsPart r = "tags = " ++ tomlArray ts ++ "\n") ∧
      (missingPart r = "" ↔ r.missing ≠ some true) ∧
      (r.missing = some true → missingPart r = "missing = true\n") := by
  refine ⟨fun e => ⟨nodup_keptRepos _ _, fun u => ?_, ?_, fun r hr => find?_keptRepos _ _ r hr,
      by rw [repoSection, repoSectionAux_eq_blockConcat]⟩, fun r => rfl, fun r => ?_⟩
  · rw [mem_keptRepos]
    have hperm : List.Perm ((sortedRepos e).map (fun r => toLowerStr r.url))
        ((ecoRepos e).map (fun r => toLowerStr r.url)) :=
      (List.perm_insertionSort urlRel (ecoRepos e)).map _
    simp [hperm.mem_iff]
  · exact List.Pairwise.sublist (keptRepos_sublist _ _)
      (List.sorted_insertionSort urlRel (ecoRepos e))
  · refine ⟨?_, ?_, ?_, ?_⟩
    · cases ht : r.tags with
      | none => simp [tagsPart, ht]
      | some ts =>
        cases ts with
        | nil => simp [tagsPart, ht]
        | cons a ts =>
          simp only [tagsPart, ht, List.isEmpty_cons, if_false]
          constructor
          · intro hc
            exact absurd hc (appendLeft_ne_empty "tags = " _ (by decide))
          · rintro (hc | hc) <;> simp at hc
    · intro ts hts hne
      simp only [tagsPart, hts]
      rw [if_neg (by simpa [List.isEmpty_iff] using hne)]
    · by_cases hm : r.missing = some true
      · rw [missingPart, if_pos hm]
        constructor
        · intro hc
          exact absurd hc (appendLeft_ne_empty "missing = true\n" "" (by decide))
        · intro hc
          exact absurd hm hc
      · rw [missingPart, if_neg hm]
        exact iff_of_true rfl hm
    · intro hm
      rw [missingPart, if_pos hm]

/-- C6 witness: the first-of-group and optional-field conjuncts
instantiated on the concrete writer ecosystem. -/
theorem repoSectionCanonicalFormWitness :
    (sortedRepos demoWriterEco).find?
      (fun q => toLowerStr q.url == toLowerStr repoXY.url) = some repoXY ∧
    tagsPart repoXY = "tags = " ++ tomlArray ["t1"] ++ "\n" ∧
    missingPart repoXY = "missing = true\n" :=
  ⟨(repoSectionCanonicalForm.1 demoWriterEco).2.2.2.1 repoXY (by decide),
   (repoSectionCanonicalForm.2.2 repoXY).2.1 ["t1"] (by decide) (by decide),
   (repoSectionCanonicalForm.2.2 repoXY).2.2.2 (by decide)⟩

/-- With pairwise-distinct lower-cased URLs (and none excluded), the dedup
loop keeps everything. -/
theorem keptRepos_of_nodup (rs : List Repo) :
    ∀ inc : List String, ((rs.map (fun r => toLowerStr r.url)).Nodup) →
    (∀ r ∈ rs, toLowerStr r.url ∉ inc) →
    keptRepos rs inc = rs := by
  induction rs with
  | nil => intro _ _ _; rfl
  | cons r rs ih =>
    intro inc hnd hninc
    rw [keptRepos, if_neg (hninc r (List.mem_cons_self _ _))]
    rw [List.map_cons, List.nodup_cons] at hnd
    congr 1
    refine ih _ hnd.2 (fun q hq => ?_)
    intro hc
    rcases List.mem_cons.mp hc with he | he
    · exact hnd.1 (he ▸ List.mem_map_of_mem (fun x => toLowerStr x.url) hq)
    · exact hninc q (List.mem_cons_of_mem r hq) he

/-- A canonical-text round trip does not change a repo's rendered block. -/
theorem repoBlock_reparseRepo (r : Repo) : repoBlock (reparseRepo r) = repoBlock r := by
  have ht : tagsPart (reparseRepo r) = tagsPart r := by
    cases htags : r.tags with
    | none => simp [tagsPart, reparseRepo, normalizeTags, htags]
    | some ts =>
      cases ts with
      | nil => simp [tagsPart, reparseRepo, normalizeTags, htags]
      | cons a ts => simp [tagsPart, reparseRepo, normalizeTags, htags]
  have hm : missingPart (reparseRepo r) = missingPart r := by
    by_cases hmiss : r.missing = some true
    · simp [missingPart, reparseRepo, hmiss]
    · simp [missingPart, reparseRepo, hmiss]
  rw [repoBlock, repoBlock, ht, hm]
  rfl

/-- The emission loop is insensitive to the round-trip normalization. -/
theorem blockConcat_map_reparse (total : Nat) (ks : List Repo) :
    ∀ i : Nat, blockConcat total (ks.map reparseRepo) i = blockConcat total ks i := by
  induction ks with
  | nil => intro i; rfl
  | cons r ks ih =>
    intro i
    rw [List.map_cons, blockConcat, blockConcat, repoBlock_reparseRepo, ih]

/-- C7 counterexample: on an ecosystem with two case-insensitively equal
repo URLs the first canonicalization appends a trailing separator line
(the counter is compared against the pre-dedup length), which the second
canonicalization omits — the texts differ by one byte. -/
theorem canonicalizeIdempotentCex :
    write_ecosystem_to_toml (reparse demoDupEco) ≠ write_ecosystem_to_toml demoDupEco ∧
    write_ecosystem_to_toml demoDupEco =
      write_ecosystem_to_toml (reparse demoDupEco) ++ "\n" :=
  ⟨by decide, by decide⟩

/-- C7 (amended).  Canonicalization is idempotent on every ecosystem whose
repo list has no case-insensitively equal URLs: reparsing the canonical
text and canonicalizing again is byte-identical.  (With such duplicates
the second pass drops one trailing separator byte, see the
counterexample.) -/
theorem canonicalizeIdempotentNodup :
    ∀ e : Ecosystem, ((ecoRepos e).map (fun r => toLowerStr r.url)).Nodup →
    write_ecosystem_to_toml (reparse e) = write_ecosystem_to_toml e := by
  intro e hnd
  have hsub : subVec (reparse e) = subVec e := by
    show sortByLower (subVec e) = subVec e
    exact List.Sorted.insertionSort_eq (List.sorted_insertionSort lowerRel _)
  have horg : orgVec (reparse e) = orgVec e := by
    show sortByLower (orgVec e) = orgVec e
    exact List.Sorted.insertionSort_eq (List.sorted_insertionSort lowerRel _)
  have hndsorted : ((sortedRepos e).map (fun r => toLowerStr r.url)).Nodup := by
    have hperm : List.Perm ((sortedRepos e).map (fun r => toLowerStr r.url))
        ((ecoRepos e).map (fun r => toLowerStr r.url)) :=
      (List.perm_insertionSort urlRel (ecoRepos e)).map _
    exact hperm.nodup_iff.mpr hnd
  have hkept : keptRepos (sortedRepos e) [] = sortedRepos e :=
    keptRepos_of_nodup _ _ hndsorted (fun r _ => List.not_mem_nil _)
  have hmapurl : ((sortedRepos e).map reparseRepo).map (fun r => toLowerStr r.url) =
      (sortedRepos e).map (fun r => toLowerStr r.url) := by
    rw [List.map_map]
    rfl
  have hsortedrep : sortedRepos (reparse e) = (sortedRepos e).map reparseRepo := by
    show List.insertionSort urlRel (ecoRepos (reparse e)) = _
    have hrepos : ecoRepos (reparse e) = (sortedRepos e).map reparseRepo := by
      show (keptRepos (sortedRepos e) []).map reparseRepo = _
      rw [hkept]
    rw [hrepos]
    refine List.Sorted.insertionSort_eq ?_
    exact List.Pairwise.map reparseRepo (fun a b h => h)
      (List.sorted_insertionSort urlRel (ecoRepos e))
  have hkept2 : keptRepos (sortedRepos (reparse e)) [] = sortedRepos (reparse e) := by
    refine keptRepos_of_nodup _ _ ?_ (fun r _ => List.not_mem_nil _)
    rw [hsortedrep, hmapurl]
    exact hndsorted
  have hrepo : repoSection (reparse e) = repoSection e := by
    rw [repoSection, repoSection, repoSectionAux_eq_blockConcat,
      repoSectionAux_eq_blockConcat, hkept2, hkept, hsortedrep,
      List.length_map, blockConcat_map_reparse]
  rw [write_ecosystem_to_toml, write_ecosystem_to_toml, hsub, horg, hrepo]
  rfl

/-- C7 witness: idempotence on the concrete writer ecosystem. -/
theorem canonicalizeIdempotentWitness :
    write_ecosystem_to_toml (reparse demoWriterEco) =
      write_ecosystem_to_toml demoWriterEco :=
  canonicalizeIdempotentNodup demoWriterEco (by decide)

/-- C9.  Each simple array is rendered in one-element-per-line multi-line
form exactly when its single-line serialized form exceeds 80 columns,
each evaluated on its own vector independently of the other; repository
blocks are rendered one per block with no width test; the concrete
80/81-column vectors sit exactly on the boundary. -/
theorem arrayRenderingWidthRule :
    (∀ e : Ecosystem, write_ecosystem_to_toml e =
      headerSection e ++ arraySection "sub_ecosystems" (subVec e) ++
      arraySection "github_organizations" (orgVec e) ++ repoSection e) ∧
    (∀ (name : String) (vec : List String), (tomlArray vec).length > 80 →
      arraySection name vec = name ++ " = [\n" ++
        joinStr (vec.map (fun s => "  " ++ tomlString s ++ ",\n")) ++ "]\n\n") ∧
    (∀ (name : String) (vec : List String), ¬(tomlArray vec).length > 80 →
      arraySection name vec = name ++ " = " ++ tomlArray vec ++ "\n\n") ∧
    (∀ e : Ecosystem, repoSection e = "# Repositories\n" ++
      blockConcat (sortedRepos e).length (keptRepos (sortedRepos e) []) 0) ∧
    (tomlArray vec80).length = 80 ∧
    (tomlArray vec81).length = 81 ∧
    arraySection "sub_ecosystems" vec80 =
      "sub_ecosystems = " ++ tomlArray vec80 ++ "\n\n" ∧
    arraySection "sub_ecosystems" vec81 = "sub_ecosystems = [\n" ++
      joinStr (vec81.map (fun s => "  " ++ tomlString s ++ ",\n")) ++ "]\n\n" := by
  refine ⟨fun e => rfl, fun name vec h => ?_, fun name vec h => ?_,
    fun e => by rw [repoSection, repoSectionAux_eq_blockConcat],
    by decide, by decide, by decide, by decide⟩
  · show (if (tomlArray vec).length > 80 then _ else _) = _
    rw [if_pos h]
  · show (if (tomlArray vec).length > 80 then _ else _) = _
    rw [if_neg h]

/-- C9 witness: the two width implications instantiated at the boundary
vectors. -/
theorem arrayRenderingWidthRuleWitness :
    arraySection "github_organizations" vec81 = "github_organizations" ++ " = [\n" ++
      joinStr (vec81.map (fun s => "  " ++ tomlString s ++ ",\n")) ++ "]\n\n" ∧
    arraySection "github_organizations" vec80 =
      "github_organizations" ++ " = " ++ tomlArray vec80 ++ "\n\n" :=
  ⟨arrayRenderingWidthRule.2.1 "github_organizations" vec81 (by decide),
   arrayRenderingWidthRule.2.2.1 "github_organizations" vec80 (by decide)⟩

/-! ## Graph construction lemmas (C10) -/

/-- Looking up after a map insert. -/
theorem lookupMap_mapInsert (k : String) (v : Ecosystem) (t : String) :
    ∀ m : EcosystemMap,
    lookupMap (mapInsert m k v) t = if t = k then some v else lookupMap m t := by
  intro m
  induction m with
  | nil =>
    by_cases ht : t = k
    · subst ht
      simp [mapInsert, lookupMap]
    · have hb : (k == t) = false := beq_eq_false_iff_ne.mpr (fun h => ht h.symm)
      rw [if_neg ht]
      unfold mapInsert lookupMap
      rw [List.find?_cons_of_neg _ (by simp [hb])]
  | cons p m ih =>
    by_cases hpk : p.1 = k
    · rw [show mapInsert (p :: m) k v = (k, v) :: m by
        rw [mapInsert, if_pos (beq_iff_eq.mpr hpk)]]
      by_cases ht : t = k
      · subst ht
        simp [lookupMap]
      · have hkt : (k == t) = false := beq_eq_false_iff_ne.mpr (fun h => ht h.symm)
        have hpt : (p.1 == t) = false :=
          beq_eq_false_iff_ne.mpr (fun h => ht (h.symm.trans hpk))
        rw [if_neg ht]
        unfold lookupMap
        rw [List.find?_cons_of_neg _ (by simp [hkt]),
          List.find?_cons_of_neg _ (by simp [hpt])]
    · rw [show mapInsert (p :: m) k v = p :: mapInsert m k v by
        rw [mapInsert, if_neg (by simp [hpk])]]
      by_cases hpt : p.1 = t
      · have ht : ¬t = k := fun h => hpk (hpt.trans h)
        have hb : (p.1 == t) = true := beq_iff_eq.mpr hpt
        rw [if_neg ht]
        unfold lookupMap
        rw [List.find?_cons_of_pos _ (by simp [hb]),
          List.find?_cons_of_pos _ (by simp [hb])]
      · have hb : (p.1 == t) = false := beq_eq_false_iff_ne.mpr hpt
        have hL : lookupMap (p :: mapInsert m k v) t = lookupMap (mapInsert m k v) t := by
          unfold lookupMap
          rw [List.find?_cons_of_neg _ (by simp [hb])]
        have hR : lookupMap (p :: m) t = lookupMap m t := by
          unfold lookupMap
          rw [List.find?_cons_of_neg _ (by simp [hb])]
        rw [hL, ih, hR]

/-- The error accumulator of the parse walk collects exactly the title
whitespace errors, in file order. -/
theorem parseTomlAux_snd :
    ∀ (fs : List (String × Ecosystem)) (acc : EcosystemMap × List ValidationError),
    (parseTomlAux acc fs).2 = acc.2 ++
      (fs.filter (fun f => !(trimStr f.2.title == f.2.title))).map
        (fun f => ValidationError.TitleError f.1) := by
  intro fs
  induction fs with
  | nil => intro acc; simp [parseTomlAux]
  | cons f fs ih =>
    intro acc
    rw [parseTomlAux, ih]
    by_cases htr : trimStr f.2.title = f.2.title
    · rw [if_pos htr, List.filter_cons_of_neg (by simp [htr])]
    · rw [if_neg htr, List.filter_cons_of_pos (by simp [htr])]
      simp [List.append_assoc]

/-- The map built by the parse walk answers lookups with the latest parsed
ecosystem of that title. -/
theorem parseTomlAux_lookup (t : String) :
    ∀ (fs : List (String × Ecosystem)) (acc : EcosystemMap × List ValidationError),
    lookupMap (parseTomlAux acc fs).1 t =
      ((fs.reverse.find? (fun f => f.2.title == t)).map (fun f => f.2)).or
        (lookupMap acc.1 t) := by
  intro fs
  induction fs with
  | nil => intro acc; rfl
  | cons f fs ih =>
    intro acc
    rw [parseTomlAux, ih, List.reverse_cons, List.find?_append]
    cases hf : fs.reverse.find? (fun f => f.2.title == t) with
    | some g => simp
    | none =>
      simp only [Option.map_none', Option.none_or]
      by_cases hp : f.2.title = t
      · rw [List.find?_cons_of_pos _ (by simp [hp])]
        show lookupMap (mapInsert acc.1 f.2.title f.2) t = _
        rw [lookupMap_mapInsert, if_pos hp.symm]
        simp
      · rw [List.find?_cons_of_neg _ (by simp [hp])]
        show lookupMap (mapInsert acc.1 f.2.title f.2) t = _
        rw [lookupMap_mapInsert, if_neg (fun h => hp h.symm)]
        simp

/-- C10.  When several successfully parsed record files share a title, the
graph keeps the latest-parsed ecosystem (the insert silently overwrites),
and the parse walk reports only title-whitespace errors — no error of any
kind for the collision; on the concrete two-file collision the map holds
the second file's ecosystem and the error list is empty. -/
theorem titleCollisionLastWins :
    (∀ (files : List (String × Ecosystem)) (t : String),
      lookupMap (parse_toml_files files).1 t =
        (files.reverse.find? (fun f => f.2.title == t)).map (fun f => f.2)) ∧
    (∀ files : List (String × Ecosystem),
      (parse_toml_files files).2 =
        (files.filter (fun f => !(trimStr f.2.title == f.2.title))).map
          (fun f => ValidationError.TitleError f.1)) ∧
    lookupMap (parse_toml_files demoCollisionFiles).1 "Same" = some demoEcoSecond ∧
    (parse_toml_files demoCollisionFiles).2 = [] := by
  refine ⟨fun files t => ?_, fun files => ?_, by decide, by decide⟩
  · rw [parse_toml_files, parseTomlAux_lookup]
    cases (files.reverse.find? (fun f => f.2.title == t)) <;> rfl
  · rw [parse_toml_files, parseTomlAux_snd]
    rfl

end CryptoEcosystems
